import Mathlib

/-!
Shallow embedding of `pkg/client/config.go` (camlistore client configuration
resolver) and verification of its specification claims.

Go strings are modelled as Lean `String` values; the underlying byte sequence
is the character list `String.data`, and the string functions from Go's
`strings` package are modelled as functions on `List Char`.
-/

namespace CamliClient

/-- Models Go `strings.HasPrefix` on the character sequence of a string. -/
def goStartsWith (s p : List Char) : Bool := p.isPrefixOf s

/-- Models Go `strings.HasSuffix` on the character sequence of a string. -/
def goEndsWith (s p : List Char) : Bool := p.isSuffixOf s

/-- Models Go `strings.ToLower` (character-wise lowering). -/
def goToLower (s : String) : String := ⟨s.data.map Char.toLower⟩

/-- First step of `cleanServer`: `if strings.HasSuffix(server, "/") \x7b server =
server[0 : len(server)-1] \x7d` — remove one trailing slash if provided. -/
def stripSlash (server : List Char) : List Char :=
  if goEndsWith server ['/'] then server.dropLast else server

/-- Second step of `cleanServer`: `if !strings.HasPrefix(server, "http") &&
!strings.HasPrefix(server, "https") \x7b server = "https://" + server \x7d` —
default to "https://" when not specified. -/
def addScheme (server : List Char) : List Char :=
  if !goStartsWith server "http".data && !goStartsWith server "https".data then
    "https://".data ++ server
  else
    server

/-- The body of `cleanServer` on character sequences: strip one trailing
slash, then default the scheme. -/
def cleanServerCore (server : List Char) : List Char :=
  addScheme (stripSlash server)

/-- Models `func cleanServer(server string) string` from config.go. -/
def cleanServer (server : String) : String := ⟨cleanServerCore server.data⟩

theorem goEndsWith_iff {s p : List Char} : goEndsWith s p = true ↔ p <:+ s :=
  List.isSuffixOf_iff_suffix

theorem goStartsWith_iff {s p : List Char} :
    goStartsWith s p = true ↔ p <+: s :=
  List.isPrefixOf_iff_prefix

theorem goEndsWith_slash_iff {s : List Char} :
    goEndsWith s ['/'] = true ↔ ∃ t, s = t ++ ['/'] := by
  rw [goEndsWith_iff]
  constructor
  · rintro ⟨t, ht⟩
    exact ⟨t, ht.symm⟩
  · rintro ⟨t, ht⟩
    exact ⟨t, ht.symm⟩

theorem stripSlash_of_no_slash {s : List Char} (h : goEndsWith s ['/'] = false) :
    stripSlash s = s := by
  simp [stripSlash, h]

theorem stripSlash_of_slash {t : List Char} :
    stripSlash (t ++ ['/']) = t := by
  have hsuf : goEndsWith (t ++ ['/']) ['/'] = true :=
    goEndsWith_slash_iff.mpr ⟨t, rfl⟩
  simp [stripSlash, hsuf]

/-- Stripping preserves "is a prefix of the original input". -/
theorem stripSlash_isPre (s : List Char) : stripSlash s <+: s := by
  unfold stripSlash
  split
  · rw [List.dropLast_eq_take]
    exact List.take_prefix _ _
  · exact List.prefix_refl s

theorem stripSlash_facts {s : List Char} (h1 : s ≠ []) (h2 : s ≠ ['/'])
    (h3 : goEndsWith s ['/', '/'] = false) :
    stripSlash s ≠ [] ∧ goEndsWith (stripSlash s) ['/'] = false := by
  cases h : goEndsWith s ['/'] with
  | false =>
    rw [stripSlash_of_no_slash h]
    exact ⟨h1, h⟩
  | true =>
    obtain ⟨t, rfl⟩ := goEndsWith_slash_iff.mp h
    rw [stripSlash_of_slash]
    constructor
    · rintro rfl
      simp at h2
    · cases ht : goEndsWith t ['/'] with
      | false => rfl
      | true =>
        obtain ⟨u, rfl⟩ := goEndsWith_slash_iff.mp ht
        exfalso
        have : goEndsWith (u ++ ['/'] ++ ['/']) ['/', '/'] = true := by
          rw [goEndsWith_iff]
          exact ⟨u, by simp⟩
        rw [this] at h3
        exact Bool.noConfusion h3

theorem addScheme_startsWith_http (s : List Char) :
    goStartsWith (addScheme s) "http".data = true := by
  unfold addScheme
  split
  · rw [goStartsWith_iff]
    have h1 : "http".data <+: "https://".data := ⟨"s://".data, rfl⟩
    exact h1.trans (List.prefix_append _ _)
  · rename_i hcond
    rw [Bool.and_eq_true, Bool.not_eq_true'] at hcond
    rcases not_and_or.mp hcond with h | h
    · simpa using h
    · have h' : goStartsWith s "https".data = true := by simpa using h
      rw [goStartsWith_iff] at h' ⊢
      exact List.IsPrefix.trans ⟨"s".data, rfl⟩ h'

theorem goEndsWith_slash_append {a s : List Char} (h : s ≠ []) :
    goEndsWith (a ++ s) ['/'] = goEndsWith s ['/'] := by
  cases hs : goEndsWith s ['/'] with
  | true =>
    obtain ⟨t, rfl⟩ := goEndsWith_slash_iff.mp hs
    rw [← List.append_assoc]
    exact goEndsWith_slash_iff.mpr ⟨a ++ t, rfl⟩
  | false =>
    cases has : goEndsWith (a ++ s) ['/'] with
    | false => rfl
    | true =>
      exfalso
      obtain ⟨t, ht⟩ := goEndsWith_slash_iff.mp has
      have hlast : s.getLast? = some '/' := by
        have h1 : (a ++ s).getLast? = some '/' := by rw [ht]; exact List.getLast?_concat t
        rw [List.getLast?_append] at h1
        rcases hx : s.getLast? with _ | c
        · exact absurd (List.getLast?_eq_none_iff.mp hx) h
        · rw [hx] at h1
          simpa using h1
      have hs' : goEndsWith s ['/'] = true := by
        rw [goEndsWith_slash_iff]
        refine ⟨s.dropLast, ?_⟩
        have hd := List.dropLast_append_getLast h
        rw [List.getLast?_eq_getLast s h] at hlast
        have hc' : s.getLast h = '/' := by simpa using hlast
        rw [← hc']
        exact hd.symm
      rw [hs'] at hs
      exact Bool.noConfusion hs

theorem addScheme_no_slash {s : List Char} (h0 : s ≠ [])
    (h : goEndsWith s ['/'] = false) :
    goEndsWith (addScheme s) ['/'] = false := by
  unfold addScheme
  split
  · rw [goEndsWith_slash_append h0]
    exact h
  · exact h

theorem addScheme_of_http {s : List Char}
    (h : goStartsWith s "http".data = true) : addScheme s = s := by
  simp [addScheme, h]

/-- The output of `cleanServer` always carries an "http" prefix. -/
theorem cleanServerCore_startsWith_http (s : List Char) :
    goStartsWith (cleanServerCore s) "http".data = true :=
  addScheme_startsWith_http (stripSlash s)

/-- For a nonempty input other than "/" not ending in "//", the output of
`cleanServer` has no trailing slash. -/
theorem cleanServerCore_no_slash {s : List Char} (h1 : s ≠ []) (h2 : s ≠ ['/'])
    (h3 : goEndsWith s ['/', '/'] = false) :
    goEndsWith (cleanServerCore s) ['/'] = false := by
  obtain ⟨hne, hns⟩ := stripSlash_facts h1 h2 h3
  exact addScheme_no_slash hne hns

theorem cleanServerCore_idem {s : List Char} (h1 : s ≠ []) (h2 : s ≠ ['/'])
    (h3 : goEndsWith s ['/', '/'] = false) :
    cleanServerCore (cleanServerCore s) = cleanServerCore s := by
  have hns := cleanServerCore_no_slash h1 h2 h3
  have hpre := cleanServerCore_startsWith_http s
  calc cleanServerCore (cleanServerCore s)
      = addScheme (stripSlash (cleanServerCore s)) := rfl
    _ = addScheme (cleanServerCore s) := by rw [stripSlash_of_no_slash hns]
    _ = cleanServerCore s := addScheme_of_http hpre

/-- A loosely typed JSON value, as produced by `jsonconfig.ReadFile` into a
`map[string]interface\x7b\x7d`. -/
inductive JVal where
  | str (s : String)
  | num (n : Int)
  | boolean (b : Bool)
  | list (xs : List JVal)
  | obj (xs : List (String × JVal))

/-- The Go runtime's name for the dynamic type of a JSON value, as printed by
the `%T` format verb (JSON numbers decode as `float64`). -/
def JVal.typeName : JVal → String
  | .str _ => "string"
  | .num _ => "float64"
  | .boolean _ => "bool"
  | .list _ => "[]interface \x7b\x7d"
  | .obj _ => "map[string]interface \x7b\x7d"

/-- The global `config` mapping: `map[string]interface\x7b\x7d`. -/
abbrev ConfigMap := List (String × JVal)

/-- Go map indexing `config[key]` with its comma-ok form: `some v` when the
key is present, `none` when absent. -/
def cfgGet : ConfigMap → String → Option JVal
  | [], _ => none
  | (k, v) :: rest, key => if k = key then some v else cfgGet rest key

/-- Outcome of running a piece of Go code: a normal value, process
termination via `log.Fatal`, or a runtime panic (failed type assertion). -/
inductive GoResult (α : Type) where
  | ok (a : α)
  | fatal (msg : String)
  | panic
deriving DecidableEq

/-- Models `osutil.CamliConfigDir()`. Modelled from the spec: a fixed,
OS-resolved per-user configuration directory (the external `osutil`
package is not part of the given sources). -/
def CamliConfigDir : String := "/home/user/.camlistore"

/-- `func ConfigFilePath() string`: `filepath.Join(osutil.CamliConfigDir(), "config")`. -/
def ConfigFilePath : String := CamliConfigDir ++ "/config"

/-- The on-disk configuration file as seen through `os.Stat` and
`jsonconfig.ReadFile`: `none` = file absent, `some (.error ())` = present but
unparsable, `some (.ok m)` = parses to the mapping `m`. The JSON parser
itself is an excluded external collaborator, so the file is modelled at the
already-parsed level. -/
abbrev ConfigFile := Option (Except Unit ConfigMap)

/-- `func parseConfig()`: on a missing file records `os.ErrNotExist`
(leaving `config` as the initial empty map), on an unparsable file calls
`log.Fatal`, otherwise stores the parsed mapping. The pair holds the global
`config` map and the `parseConfigErr != nil` flag. -/
def parseConfig (file : ConfigFile) : GoResult (ConfigMap × Bool) :=
  match file with
  | none => .ok ([], true)
  | some (.error _) => .fatal "jsonconfig parse error"
  | some (.ok m) => .ok (m, false)

/-- The process-wide `configOnce sync.Once` guard together with the globals
it protects: `none` before the first `configOnce.Do(parseConfig)`,
`some r` after it has recorded outcome `r`. -/
abbrev Cache := Option (GoResult (ConfigMap × Bool))

/-- `configOnce.Do(parseConfig)`: the first caller parses the file and
records the outcome; every later caller observes the recorded outcome
without touching the file. -/
def configOnceDo (cache : Cache) (file : ConfigFile) :
    Cache × GoResult (ConfigMap × Bool) :=
  match cache with
  | some r => (some r, r)
  | none => (some (parseConfig file), parseConfig file)

/-- The `else` path of `func serverOrDie() string`: load the configuration,
read the "server" key (panicking if it is present but not a string), clean
it, and `log.Fatalf` when the key was absent or the cleaned value empty. -/
def serverOrDieLoad (cache : Cache) (file : ConfigFile) :
    Cache × GoResult String :=
  match configOnceDo cache file with
  | (cache', .fatal m) => (cache', .fatal m)
  | (cache', .panic) => (cache', .panic)
  | (cache', .ok (config, _)) =>
    match cfgGet config "server" with
    | none =>
      (cache', .fatal ("Missing or invalid \"server\" in \"" ++ ConfigFilePath ++ "\""))
    | some (.str s) =>
      let server := cleanServer s
      if server = "" then
        (cache', .fatal ("Missing or invalid \"server\" in \"" ++ ConfigFilePath ++ "\""))
      else
        (cache', .ok server)
    | some _ => (cache', .panic)

/-- `func serverOrDie() string`. The `flagServer` argument models the
package-level `*string` flag: `none` when `AddFlags` was never called,
`some s` for a flag value `s`. -/
def serverOrDie (flagServer : Option String) (cache : Cache)
    (file : ConfigFile) : Cache × GoResult String :=
  match flagServer with
  | some s => if s = "" then serverOrDieLoad cache file
              else (cache, .ok (cleanServer s))
  | none => serverOrDieLoad cache file

/-- Errors from the external `auth` package; `ErrNoAuth` is the
distinguishable "no auth configured" outcome of `auth.FromEnv`. -/
inductive AuthErr where
  | ErrNoAuth
  | other (msg : String)
deriving DecidableEq

/-- Result of an auth setup call: the `c.authMode` field that was set, the
returned error, and the log lines emitted. -/
structure AuthOutcome where
  authMode : Option String
  err : Option AuthErr
  log : List String
deriving DecidableEq

/-- Warning printed by `SetupAuth` when an explicit server is used and the
environment supplies no auth. -/
def explicitServerNoAuthWarning : String :=
  "Using explicit --server parameter; not using config file auth, and no auth mode set in environment"

def authOutcomeOf (r : Except AuthErr String) (log : List String) : AuthOutcome :=
  match r with
  | .ok m => { authMode := some m, err := none, log := log }
  | .error e => { authMode := none, err := some e, log := log }

/-- `func (c *Client) SetupAuthFromConfig(conf jsonconfig.Obj) error`. The
external `auth.FromEnv` and `auth.FromConfig` results are passed in as
`fromEnv` and `fromConfig` (auth modes are opaque strings). A present but
non-string "auth" value leaves `authString` empty, as in the source. -/
def SetupAuthFromConfig (fromEnv : Except AuthErr String)
    (fromConfig : String → Except AuthErr String) (conf : ConfigMap) :
    AuthOutcome :=
  match cfgGet conf "auth" with
  | some v =>
    let authString := match v with
      | .str s => s
      | _ => ""
    authOutcomeOf (fromConfig authString) []
  | none => authOutcomeOf fromEnv []

/-- The fall-through tail of `SetupAuth`: `configOnce.Do(parseConfig);
return c.SetupAuthFromConfig(config)`. -/
def SetupAuthLoad (fromEnv : Except AuthErr String)
    (fromConfig : String → Except AuthErr String) (cache : Cache)
    (file : ConfigFile) : Cache × GoResult AuthOutcome :=
  match configOnceDo cache file with
  | (cache', .fatal m) => (cache', .fatal m)
  | (cache', .panic) => (cache', .panic)
  | (cache', .ok (config, _)) =>
    (cache', .ok (SetupAuthFromConfig fromEnv fromConfig config))

/-- `func (c *Client) SetupAuth() error`: with a non-empty explicit server
flag, auth comes from the environment only (warning on `ErrNoAuth`);
otherwise the configuration is loaded and consulted. -/
def SetupAuth (flagServer : Option String) (fromEnv : Except AuthErr String)
    (fromConfig : String → Except AuthErr String) (cache : Cache)
    (file : ConfigFile) : Cache × GoResult AuthOutcome :=
  match flagServer with
  | some s =>
    if s = "" then SetupAuthLoad fromEnv fromConfig cache file
    else
      (cache, .ok (authOutcomeOf fromEnv
        (match fromEnv with
         | .error .ErrNoAuth => [explicitServerNoAuthWarning]
         | _ => [])))
  | none => SetupAuthLoad fromEnv fromConfig cache file

/-- A local filesystem: regular files with contents, and directories. -/
structure FS where
  files : List (String × String)
  dirs : List String
deriving DecidableEq

/-- `os.Stat` succeeding: the path names an existing file or directory. -/
def FS.statE (fs : FS) (p : String) : Bool :=
  fs.files.any (fun e => e.1 == p) || fs.dirs.contains p

/-- Path names an existing directory (`fi.IsDir()`). -/
def FS.isDir (fs : FS) (p : String) : Bool := fs.dirs.contains p

/-- `ioutil.WriteFile`: create or replace the regular file at `p`. -/
def FS.writeFile (fs : FS) (p c : String) : FS :=
  { fs with files := (p, c) :: fs.files.filter (fun e => !(e.1 == p)) }

/-- `func fileExists(name string) bool`. -/
def fileExists (fs : FS) (name : String) : Bool := fs.statE name

/-- The external collaborators of the identity resolver, passed in as
explicit functions: `osutil.IdentitySecretRing()`,
`jsonsign.DefaultSecRingPath()`, `jsonsign.EntityFromSecring`,
`jsonsign.ArmoredPublicKey`, and `blobref.SHA1FromString` (whose result is
identified with its `String()` form, e.g. "sha1-<hex>"). Entities are
opaque handles. -/
structure SignExt where
  identitySecretRing : String
  defaultSecRingPath : String
  entityFromSecring : String → String → Except String String
  armoredPublicKey : String → Except String String
  sha1FromString : String → String

/-- `func (c *Client) SecretRingFile() string`. -/
def SecretRingFile (ext : SignExt) (cache : Cache) (file : ConfigFile)
    (fs : FS) : Cache × GoResult String :=
  match configOnceDo cache file with
  | (cache', .fatal m) => (cache', .fatal m)
  | (cache', .panic) => (cache', .panic)
  | (cache', .ok (config, _)) =>
    match cfgGet config "secretRing" with
    | some (.str keyRing) =>
      if keyRing ≠ "" then (cache', .ok keyRing)
      else (cache', .ok (if fileExists fs ext.identitySecretRing then
              ext.identitySecretRing else ext.defaultSecRingPath))
    | _ => (cache', .ok (if fileExists fs ext.identitySecretRing then
              ext.identitySecretRing else ext.defaultSecRingPath))

/-- `func getSignerPublicKeyBlobref() *blobref.BlobRef`: resolve keyId,
keyring, entity and armored key, then publish the armored key under its
content address in `selfPubKeyDir` unless that file already exists. Returns
the updated once-cache, the updated filesystem, and the blobref (`none`
models a nil `*blobref.BlobRef`). -/
def getSignerPublicKeyBlobref (ext : SignExt) (cache : Cache)
    (file : ConfigFile) (fs : FS) : Cache × FS × GoResult (Option String) :=
  match configOnceDo cache file with
  | (cache', .fatal m) => (cache', fs, .fatal m)
  | (cache', .panic) => (cache', fs, .panic)
  | (cache', .ok (config, _)) =>
    match cfgGet config "keyId" with
    | some (.str keyId) =>
      let keyRingRes : Option String :=
        match cfgGet config "secretRing" with
        | some (.str kr) => some kr
        | _ =>
          if fileExists fs ext.identitySecretRing then some ext.identitySecretRing
          else if fileExists fs ext.defaultSecRingPath then some ext.defaultSecRingPath
          else none
      match keyRingRes with
      | none => (cache', fs, .ok none)
      | some keyRing =>
        match ext.entityFromSecring keyId keyRing with
        | .error _ => (cache', fs, .ok none)
        | .ok entity =>
          match ext.armoredPublicKey entity with
          | .error _ => (cache', fs, .ok none)
          | .ok armored =>
            match cfgGet config "selfPubKeyDir" with
            | some (.str selfPubKeyDir) =>
              if fs.statE selfPubKeyDir && fs.isDir selfPubKeyDir then
                let br := ext.sha1FromString armored
                let pubFile := selfPubKeyDir ++ "/" ++ br ++ ".camli"
                if fs.statE pubFile then (cache', fs, .ok (some br))
                else (cache', fs.writeFile pubFile armored, .ok (some br))
              else (cache', fs, .ok none)
            | _ => (cache', fs, .ok none)
    | _ => (cache', fs, .ok none)

/-- The loop body of `initTrustedCerts` over `config[trustedCerts]`:
lowercase and append each string element; on the first non-string element
log a type mismatch and return what was accumulated so far. Returns the
final `c.trustedCerts` and the log lines. -/
def initTrustedCertsLoop : List JVal → List String → List String × List String
  | [], acc => (acc, [])
  | v :: rest, acc =>
    match v with
    | .str s => initTrustedCertsLoop rest (acc ++ [goToLower s])
    | other => (acc, ["trustedCert: was expecting a string, got " ++ other.typeName])

/-- `func (c *Client) initTrustedCerts()`. `env` is the value of
`os.Getenv("CAMLI_TRUSTED_CERT")` ("" when unset). Returns the resulting
`c.trustedCerts` together with the log lines. -/
def initTrustedCerts (env : String) (cache : Cache) (file : ConfigFile) :
    Cache × GoResult (List String × List String) :=
  if env ≠ "" then (cache, .ok ([env], []))
  else
    match configOnceDo cache file with
    | (cache', .fatal m) => (cache', .fatal m)
    | (cache', .panic) => (cache', .panic)
    | (cache', .ok (config, _)) =>
      match cfgGet config "trustedCerts" with
      | some (.list val) => (cache', .ok (initTrustedCertsLoop val []))
      | _ => (cache', .ok ([], []))

/-- The per-instance state of a `Client` that the trust resolver touches:
its `trustedCerts` field (a nil slice initially, modelled as `[]`). -/
structure Client where
  trustedCerts : List String
deriving DecidableEq

/-- `func (c *Client) GetTrustedCerts() []string`:
`initTrustedCertsOnce.Do(c.initTrustedCerts); return c.trustedCerts`.
`onceFired` is the state of the PACKAGE-LEVEL `initTrustedCertsOnce`
guard, shared by every client in the process. Returns the fired flag, the
(possibly updated) client, the once-cache, and the returned slice. -/
def GetTrustedCerts (env : String) (onceFired : Bool) (c : Client)
    (cache : Cache) (file : ConfigFile) :
    Bool × Client × Cache × GoResult (List String) :=
  if onceFired then (true, c, cache, .ok c.trustedCerts)
  else
    match initTrustedCerts env cache file with
    | (cache', .fatal m) => (true, c, cache', .fatal m)
    | (cache', .panic) => (true, c, cache', .panic)
    | (cache', .ok (certs, _)) =>
      (true, { c with trustedCerts := certs }, cache', .ok certs)

theorem goStartsWith_false_of_pre {s t p : List Char} (hst : s <+: t)
    (h : goStartsWith t p = false) : goStartsWith s p = false := by
  cases hg : goStartsWith s p with
  | false => rfl
  | true =>
    have := goStartsWith_iff.mpr ((goStartsWith_iff.mp hg).trans hst)
    rw [h] at this
    exact Bool.noConfusion this

/-- C3 counterexample: the claim "normalization is idempotent for every
input string" fails at the empty string: `cleanServer "" = "https://"`, and
cleaning that again strips its trailing slash, giving `"https:/"`. -/
theorem cleanServer_not_idempotent :
    cleanServer (cleanServer "") ≠ cleanServer "" := by decide

/-- C3 (amended): server-URL normalization is idempotent for every input
string that is nonempty, is not exactly "/", and does not end in two
slashes; for such inputs re-normalizing the normalized value is a no-op. -/
theorem cleanServer_idem_of_wellformed (s : String) (h1 : s.data ≠ [])
    (h2 : s.data ≠ ['/']) (h3 : goEndsWith s.data ['/', '/'] = false) :
    cleanServer (cleanServer s) = cleanServer s :=
  String.ext (cleanServerCore_idem h1 h2 h3)

/-- Witness for the amended C3 at the concrete input "example.com/". -/
theorem cleanServer_idem_witness :
    cleanServer (cleanServer "example.com/") = cleanServer "example.com/" :=
  cleanServer_idem_of_wellformed "example.com/" (by decide) (by decide) (by decide)

/-- C4: for every server string lacking an "http"/"https" prefix the
normalized value starts with "https://", and for every input with a
trailing slash exactly one trailing slash is stripped (the result is the
input minus its last character, possibly with "https://" prepended). -/
theorem cleanServer_scheme_and_slash (s : String) :
    (goStartsWith s.data "http".data = false ∧
        goStartsWith s.data "https".data = false →
      goStartsWith (cleanServer s).data "https://".data = true)
    ∧ (goEndsWith s.data ['/'] = true →
      (cleanServer s).data = s.data.dropLast ∨
      (cleanServer s).data = "https://".data ++ s.data.dropLast) := by
  constructor
  · rintro ⟨hp1, hp2⟩
    show goStartsWith (addScheme (stripSlash s.data)) "https://".data = true
    have hq1 : goStartsWith (stripSlash s.data) "http".data = false :=
      goStartsWith_false_of_pre (stripSlash_isPre s.data) hp1
    have hq2 : goStartsWith (stripSlash s.data) "https".data = false :=
      goStartsWith_false_of_pre (stripSlash_isPre s.data) hp2
    unfold addScheme
    rw [hq1, hq2]
    simp only [Bool.not_false, Bool.and_self, if_true]
    exact goStartsWith_iff.mpr (List.prefix_append _ _)
  · intro hsl
    have hstrip : stripSlash s.data = s.data.dropLast := by
      simp [stripSlash, hsl]
    show addScheme (stripSlash s.data) = _ ∨ addScheme (stripSlash s.data) = _
    rw [hstrip]
    unfold addScheme
    split
    · right; rfl
    · left; rfl

/-- Witness for C4 at the concrete input "example.com/". -/
theorem cleanServer_scheme_and_slash_witness :
    goStartsWith (cleanServer "example.com/").data "https://".data = true
    ∧ ((cleanServer "example.com/").data = "example.com/".data.dropLast ∨
       (cleanServer "example.com/").data =
         "https://".data ++ "example.com/".data.dropLast) :=
  ⟨(cleanServer_scheme_and_slash "example.com/").1 (by decide),
   (cleanServer_scheme_and_slash "example.com/").2 (by decide)⟩

/-- C2 evaluation at the failing input: with no server flag and a loaded
configuration mapping "server" to the empty string, `serverOrDie` does NOT
terminate fatally — `cleanServer` is applied before the emptiness check, so
the check `server == ""` can never fire and the call returns "https://".
(The dead emptiness check in the source shows the fatal exit was the
intent.) -/
theorem serverOrDie_emptyServer_returns_https :
    (serverOrDie none none (some (.ok [("server", .str "")]))).2
      = .ok "https://" := rfl

/-- C10: with no server override and a configuration mapping "server" to a
non-string value (here the number 5), `serverOrDie` hits the unchecked type
assertion `value.(string)` and panics, rather than exiting with the
documented diagnostic or returning a value. -/
theorem serverOrDie_nonstring_panics :
    (serverOrDie none none (some (.ok [("server", .num 5)]))).2 = .panic := rfl

/-- C9 evaluation at the failing input: `initTrustedCertsOnce` is a
package-level guard, so with `CAMLI_TRUSTED_CERT=abc` the first client's
first `GetTrustedCerts` computes ["abc"], but a second, distinct client's
first call finds the guard already fired and returns its uninitialized
(nil) `trustedCerts` slice — its trust set is never computed. -/
theorem getTrustedCerts_second_client_uninitialized :
    (GetTrustedCerts "abc" false ⟨[]⟩ none none).2.2.2 = .ok ["abc"]
    ∧ (GetTrustedCerts "abc"
        (GetTrustedCerts "abc" false ⟨[]⟩ none none).1 ⟨[]⟩ none none).2.2.2
      = .ok [] :=
  ⟨rfl, rfl⟩

/-- C1: once the configuration has been loaded (the once-guard holds a
recorded outcome `r`), `configOnce.Do` is a no-op that returns `r`, and
every resolver — server, auth, secret ring, identity, trusted certs —
produces the same result whatever the on-disk configuration file now
contains: the file is never re-read. -/
theorem configLoadOnce_resolvers_stable (r : GoResult (ConfigMap × Bool))
    (fA fB : ConfigFile) (flag : Option String)
    (fromEnv : Except AuthErr String)
    (fromConfig : String → Except AuthErr String) (ext : SignExt) (fs : FS)
    (env : String) :
    configOnceDo (some r) fA = (some r, r)
    ∧ serverOrDie flag (some r) fA = serverOrDie flag (some r) fB
    ∧ SetupAuth flag fromEnv fromConfig (some r) fA
        = SetupAuth flag fromEnv fromConfig (some r) fB
    ∧ SecretRingFile ext (some r) fA fs = SecretRingFile ext (some r) fB fs
    ∧ getSignerPublicKeyBlobref ext (some r) fA fs
        = getSignerPublicKeyBlobref ext (some r) fB fs
    ∧ initTrustedCerts env (some r) fA = initTrustedCerts env (some r) fB := by
  refine ⟨rfl, ?_, ?_, rfl, rfl, rfl⟩
  · cases flag with
    | none => rfl
    | some s => rfl
  · cases flag with
    | none => rfl
    | some s => rfl

/-- C5: with a non-empty explicit server flag, `SetupAuth` derives auth
strictly from the environment: its outcome is identical for any two loaded
configurations that agree outside their "auth" key (in particular when one
has an "auth" entry and the other does not), and when the environment has
no auth it returns the distinguishable `ErrNoAuth` outcome together with
the logged warning. -/
theorem setupAuth_explicit_ignores_config (s : String) (hs : s ≠ "")
    (fromEnv : Except AuthErr String)
    (fromConfig : String → Except AuthErr String) (cfg1 cfg2 : ConfigMap)
    (e1 e2 : Bool) (f1 f2 : ConfigFile)
    (hdiff : ∀ k, k ≠ "auth" → cfgGet cfg1 k = cfgGet cfg2 k) :
    (SetupAuth (some s) fromEnv fromConfig (some (.ok (cfg1, e1))) f1).2
      = (SetupAuth (some s) fromEnv fromConfig (some (.ok (cfg2, e2))) f2).2
    ∧ (fromEnv = .error .ErrNoAuth →
      (SetupAuth (some s) fromEnv fromConfig (some (.ok (cfg1, e1))) f1).2
        = .ok { authMode := none, err := some .ErrNoAuth,
                log := [explicitServerNoAuthWarning] }) := by
  constructor
  · simp [SetupAuth, hs]
  · rintro rfl
    simp [SetupAuth, hs, authOutcomeOf]

/-- Witness for C5: flag "http://other.example", environment without auth,
one configuration with an "auth" entry, the other without. -/
theorem setupAuth_explicit_ignores_config_witness :
    (SetupAuth (some "http://other.example") (.error .ErrNoAuth)
        (fun a => .ok a)
        (some (.ok ([("auth", .str "userpass:u:p")], false))) none).2
      = (SetupAuth (some "http://other.example") (.error .ErrNoAuth)
          (fun a => .ok a) (some (.ok ([], false))) none).2
    ∧ (SetupAuth (some "http://other.example") (.error .ErrNoAuth)
        (fun a => .ok a)
        (some (.ok ([("auth", .str "userpass:u:p")], false))) none).2
      = .ok { authMode := none, err := some .ErrNoAuth,
              log := [explicitServerNoAuthWarning] } := by
  have h := setupAuth_explicit_ignores_config "http://other.example"
    (by decide) (.error .ErrNoAuth) (fun a => .ok a)
    [("auth", .str "userpass:u:p")] [] false false none none
    (fun k hk => by
      have hk' : ¬("auth" = k) := fun h => hk h.symm
      simp [cfgGet, hk'])
  exact ⟨h.1, h.2 rfl⟩

theorem initTrustedCertsLoop_strings (bad : JVal) (hbad : ∀ s, bad ≠ .str s)
    (rest : List JVal) :
    ∀ (strs : List String) (acc : List String),
      initTrustedCertsLoop (strs.map .str ++ bad :: rest) acc
        = (acc ++ strs.map goToLower,
           ["trustedCert: was expecting a string, got " ++ bad.typeName]) := by
  intro strs
  induction strs with
  | nil =>
    intro acc
    cases bad with
    | str s => exact absurd rfl (hbad s)
    | num n => simp [initTrustedCertsLoop]
    | boolean b => simp [initTrustedCertsLoop]
    | list xs => simp [initTrustedCertsLoop]
    | obj xs => simp [initTrustedCertsLoop]
  | cons p ps ih =>
    intro acc
    have hstep : initTrustedCertsLoop ((p :: ps).map .str ++ bad :: rest) acc
        = initTrustedCertsLoop (ps.map .str ++ bad :: rest)
            (acc ++ [goToLower p]) := rfl
    rw [hstep, ih]
    simp

theorem initTrustedCertsLoop_mem_lower :
    ∀ (l : List JVal) (acc : List String) (x : String),
      x ∈ (initTrustedCertsLoop l acc).1 → x ∈ acc ∨ ∃ y, x = goToLower y := by
  intro l
  induction l with
  | nil =>
    intro acc x hx
    exact .inl (by simpa [initTrustedCertsLoop] using hx)
  | cons v rest ih =>
    intro acc x hx
    cases v with
    | str s =>
      have hx' : x ∈ (initTrustedCertsLoop rest (acc ++ [goToLower s])).1 := by
        simpa [initTrustedCertsLoop] using hx
      rcases ih (acc ++ [goToLower s]) x hx' with h | h
      · rcases List.mem_append.mp h with h | h
        · exact .inl h
        · exact .inr ⟨s, by simpa using h⟩
      · exact .inr h
    | num n => exact .inl (by simpa [initTrustedCertsLoop] using hx)
    | boolean b => exact .inl (by simpa [initTrustedCertsLoop] using hx)
    | list xs => exact .inl (by simpa [initTrustedCertsLoop] using hx)
    | obj xs => exact .inl (by simpa [initTrustedCertsLoop] using hx)

/-- Evaluation of `initTrustedCerts` with no environment override and an
already-loaded configuration. -/
theorem initTrustedCerts_loaded_eval (cfg : ConfigMap) (e : Bool)
    (file : ConfigFile) :
    (initTrustedCerts "" (some (.ok (cfg, e))) file).2
      = match cfgGet cfg "trustedCerts" with
        | some (.list val) => .ok (initTrustedCertsLoop val [])
        | _ => .ok ([], []) := by
  rcases hv : cfgGet cfg "trustedCerts" with _ | v
  · simp [initTrustedCerts, configOnceDo, hv]
  · cases v <;> simp [initTrustedCerts, configOnceDo, hv]

/-- C7 counterexample: with `CAMLI_TRUSTED_CERT=ABC` the resolved trust set
is exactly ["ABC"] — the environment value is NOT lowercased, so not every
fingerprint in the resolved set is in lowercased canonical form. -/
theorem trustedCerts_env_not_lowercased :
    (initTrustedCerts "ABC"
        (some (.ok ([("trustedCerts", .list [.str "zz"])], false))) none).2
      = .ok (["ABC"], [])
    ∧ goToLower "ABC" ≠ "ABC" :=
  ⟨rfl, by decide⟩

/-- C7 (amended): when the environment variable is set, its value alone —
verbatim, with no lowercasing and no merge from configuration — becomes the
trust set; when it is unset, every fingerprint resolved from the
configuration's "trustedCerts" list is in lowercased canonical form. -/
theorem trustedCerts_env_verbatim_config_lowercased (env : String)
    (cfg : ConfigMap) (e : Bool) (file : ConfigFile) :
    (env ≠ "" →
      (initTrustedCerts env (some (.ok (cfg, e))) file).2 = .ok ([env], []))
    ∧ (∀ certs logs, env = "" →
      (initTrustedCerts env (some (.ok (cfg, e))) file).2 = .ok (certs, logs) →
      ∀ x ∈ certs, ∃ y, x = goToLower y) := by
  constructor
  · intro henv
    simp [initTrustedCerts, henv]
  · rintro certs logs rfl hres x hx
    rcases hv : cfgGet cfg "trustedCerts" with _ | v
    · have hr : (initTrustedCerts "" (some (.ok (cfg, e))) file).2
          = .ok ([], []) := by
        rw [initTrustedCerts_loaded_eval, hv]
      rw [hr] at hres
      injection hres with h1
      have hc : certs = [] := (congrArg Prod.fst h1).symm
      rw [hc] at hx
      simp at hx
    · cases v with
      | list val =>
        have hr : (initTrustedCerts "" (some (.ok (cfg, e))) file).2
            = .ok (initTrustedCertsLoop val []) := by
          rw [initTrustedCerts_loaded_eval, hv]
        rw [hr] at hres
        injection hres with h1
        have hc : certs = (initTrustedCertsLoop val []).1 :=
          (congrArg Prod.fst h1).symm
        rw [hc] at hx
        rcases initTrustedCertsLoop_mem_lower val [] x hx with h | h
        · simp at h
        · exact h
      | str s =>
        have hr : (initTrustedCerts "" (some (.ok (cfg, e))) file).2
            = .ok ([], []) := by
          rw [initTrustedCerts_loaded_eval, hv]
        rw [hr] at hres
        injection hres with h1
        have hc : certs = [] := (congrArg Prod.fst h1).symm
        rw [hc] at hx
        simp at hx
      | num n =>
        have hr : (initTrustedCerts "" (some (.ok (cfg, e))) file).2
            = .ok ([], []) := by
          rw [initTrustedCerts_loaded_eval, hv]
        rw [hr] at hres
        injection hres with h1
        have hc : certs = [] := (congrArg Prod.fst h1).symm
        rw [hc] at hx
        simp at hx
      | boolean b =>
        have hr : (initTrustedCerts "" (some (.ok (cfg, e))) file).2
            = .ok ([], []) := by
          rw [initTrustedCerts_loaded_eval, hv]
        rw [hr] at hres
        injection hres with h1
        have hc : certs = [] := (congrArg Prod.fst h1).symm
        rw [hc] at hx
        simp at hx
      | obj xs =>
        have hr : (initTrustedCerts "" (some (.ok (cfg, e))) file).2
            = .ok ([], []) := by
          rw [initTrustedCerts_loaded_eval, hv]
        rw [hr] at hres
        injection hres with h1
        have hc : certs = [] := (congrArg Prod.fst h1).symm
        rw [hc] at hx
        simp at hx

/-- Witness for the amended C7: `CAMLI_TRUSTED_CERT=ABC` short-circuits a
configuration containing "Zz" and yields exactly ["ABC"]; and with no
environment value every fingerprint resolved from a configuration list is a
lowercased form. -/
theorem trustedCerts_env_verbatim_witness :
    (initTrustedCerts "ABC"
        (some (.ok ([("trustedCerts", .list [.str "Zz"])], false))) none).2
      = .ok (["ABC"], [])
    ∧ ∀ x ∈ (["abc123"] : List String), ∃ y, x = goToLower y := by
  constructor
  · exact (trustedCerts_env_verbatim_config_lowercased "ABC"
      [("trustedCerts", .list [.str "Zz"])] false none).1 (by decide)
  · intro x hx
    exact (trustedCerts_env_verbatim_config_lowercased ""
      [("trustedCerts", .list [.str "AbC123"])] false none).2
      ["abc123"] [] rfl rfl x hx

/-- C8: when the loaded configuration's "trustedCerts" list is a block of
strings followed by a non-string element and an arbitrary tail, trust
resolution logs a type-mismatch diagnostic (naming the offending dynamic
type), keeps only the lowercased strings seen before that element, and
abandons the remaining list. -/
theorem trustedCerts_truncates_at_nonstring (strs : List String) (bad : JVal)
    (hbad : ∀ s, bad ≠ .str s) (rest : List JVal) (cfg : ConfigMap)
    (e : Bool) (file : ConfigFile)
    (hcfg : cfgGet cfg "trustedCerts"
      = some (.list (strs.map .str ++ bad :: rest))) :
    (initTrustedCerts "" (some (.ok (cfg, e))) file).2
      = .ok (strs.map goToLower,
             ["trustedCert: was expecting a string, got " ++ bad.typeName]) := by
  rw [initTrustedCerts_loaded_eval, hcfg]
  show GoResult.ok (initTrustedCertsLoop (strs.map .str ++ bad :: rest) []) = _
  rw [initTrustedCertsLoop_strings bad hbad rest strs []]
  simp

/-- Witness for C8: `trustedCerts = ["AbC", 5, "x"]` resolves to ["abc"]
with the type-mismatch diagnostic, abandoning the tail. -/
theorem trustedCerts_truncates_witness :
    (initTrustedCerts ""
        (some (.ok ([("trustedCerts",
          .list [.str "AbC", .num 5, .str "x"])], false))) none).2
      = .ok (["abc"], ["trustedCert: was expecting a string, got float64"]) := by
  have h := trustedCerts_truncates_at_nonstring ["AbC"] (.num 5)
    (fun s h => JVal.noConfusion h) [.str "x"]
    [("trustedCerts", .list [.str "AbC", .num 5, .str "x"])] false none rfl
  exact h

theorem statE_writeFile_self (fs : FS) (p c : String) :
    (fs.writeFile p c).statE p = true := by
  simp [FS.writeFile, FS.statE]

/-- Evaluation of `getSignerPublicKeyBlobref` under a loaded configuration
with a string keyId, an explicit secretRing, successful keyring lookup and
serialization, and an existing selfPubKeyDir directory: it returns the
content address of the armored key and writes the blob file only when it
does not already exist. -/
theorem getSigner_loaded_eval (ext : SignExt) (cfg : ConfigMap) (e : Bool)
    (file : ConfigFile) (fs : FS) (kid kr ent arm dir : String)
    (h1 : cfgGet cfg "keyId" = some (.str kid))
    (h2 : cfgGet cfg "secretRing" = some (.str kr))
    (h3 : ext.entityFromSecring kid kr = .ok ent)
    (h4 : ext.armoredPublicKey ent = .ok arm)
    (h5 : cfgGet cfg "selfPubKeyDir" = some (.str dir))
    (h6 : fs.dirs.contains dir = true) :
    getSignerPublicKeyBlobref ext (some (.ok (cfg, e))) file fs
      = (some (.ok (cfg, e)),
         (if fs.statE (dir ++ "/" ++ ext.sha1FromString arm ++ ".camli") then fs
          else fs.writeFile (dir ++ "/" ++ ext.sha1FromString arm ++ ".camli")
            arm),
         .ok (some (ext.sha1FromString arm))) := by
  have hmem : dir ∈ fs.dirs := by simpa using h6
  have hdir : (fs.statE dir && fs.isDir dir) = true := by
    simp [FS.statE, FS.isDir]
    exact ⟨Or.inr hmem, hmem⟩
  simp only [getSignerPublicKeyBlobref, configOnceDo, h1, h2, h3, h4, h5,
    hdir, if_true]
  split <;> rfl

/-- C6: given a loaded configuration with a valid "keyId", a resolvable
keyring, and an existing "selfPubKeyDir" directory, resolving the public
key blobref twice (threading the once-cache and the filesystem through)
returns the same content address both times, and the second resolution
leaves the filesystem untouched — in particular, when the file named by the
content address already exists it is not rewritten and its pre-existence is
not an error. -/
theorem signerPublicKeyBlobref_idempotent (ext : SignExt) (cfg : ConfigMap)
    (e : Bool) (file : ConfigFile) (fs : FS) (kid kr ent arm dir : String)
    (h1 : cfgGet cfg "keyId" = some (.str kid))
    (h2 : cfgGet cfg "secretRing" = some (.str kr))
    (h3 : ext.entityFromSecring kid kr = .ok ent)
    (h4 : ext.armoredPublicKey ent = .ok arm)
    (h5 : cfgGet cfg "selfPubKeyDir" = some (.str dir))
    (h6 : fs.dirs.contains dir = true) :
    (getSignerPublicKeyBlobref ext (some (.ok (cfg, e))) file fs).2.2
      = .ok (some (ext.sha1FromString arm))
    ∧ (getSignerPublicKeyBlobref ext
        (getSignerPublicKeyBlobref ext (some (.ok (cfg, e))) file fs).1 file
        (getSignerPublicKeyBlobref ext (some (.ok (cfg, e))) file fs).2.1).2.2
      = .ok (some (ext.sha1FromString arm))
    ∧ (getSignerPublicKeyBlobref ext
        (getSignerPublicKeyBlobref ext (some (.ok (cfg, e))) file fs).1 file
        (getSignerPublicKeyBlobref ext (some (.ok (cfg, e))) file fs).2.1).2.1
      = (getSignerPublicKeyBlobref ext (some (.ok (cfg, e))) file fs).2.1 := by
  have heval := getSigner_loaded_eval ext cfg e file fs kid kr ent arm dir
    h1 h2 h3 h4 h5 h6
  by_cases hstat :
      fs.statE (dir ++ "/" ++ ext.sha1FromString arm ++ ".camli") = true
  · rw [heval, if_pos hstat]
    refine ⟨rfl, ?_, ?_⟩
    · show (getSignerPublicKeyBlobref ext (some (.ok (cfg, e))) file fs).2.2
        = .ok (some (ext.sha1FromString arm))
      rw [heval, if_pos hstat]
    · show (getSignerPublicKeyBlobref ext (some (.ok (cfg, e))) file fs).2.1
        = fs
      rw [heval, if_pos hstat]
  · have h6' : ((fs.writeFile
        (dir ++ "/" ++ ext.sha1FromString arm ++ ".camli")
        arm).dirs.contains dir) = true := h6
    have heval2 := getSigner_loaded_eval ext cfg e file
      (fs.writeFile (dir ++ "/" ++ ext.sha1FromString arm ++ ".camli") arm)
      kid kr ent arm dir h1 h2 h3 h4 h5 h6'
    have hstat2 : (fs.writeFile
        (dir ++ "/" ++ ext.sha1FromString arm ++ ".camli") arm).statE
          (dir ++ "/" ++ ext.sha1FromString arm ++ ".camli") = true :=
      statE_writeFile_self fs _ arm
    rw [heval, if_neg hstat]
    refine ⟨rfl, ?_, ?_⟩
    · show (getSignerPublicKeyBlobref ext (some (.ok (cfg, e))) file
          (fs.writeFile (dir ++ "/" ++ ext.sha1FromString arm ++ ".camli")
            arm)).2.2
        = .ok (some (ext.sha1FromString arm))
      rw [heval2, if_pos hstat2]
    · show (getSignerPublicKeyBlobref ext (some (.ok (cfg, e))) file
          (fs.writeFile (dir ++ "/" ++ ext.sha1FromString arm ++ ".camli")
            arm)).2.1
        = fs.writeFile (dir ++ "/" ++ ext.sha1FromString arm ++ ".camli") arm
      rw [heval2, if_pos hstat2]

/-- Concrete externals for the C6 witness. -/
def c6ext : SignExt :=
  { identitySecretRing := "/id/ring"
    defaultSecRingPath := "/def/ring"
    entityFromSecring := fun _ _ => .ok "ENT"
    armoredPublicKey := fun _ => .ok "ARMOR"
    sha1FromString := fun _ => "sha1-cafe" }

/-- Concrete configuration for the C6 witness. -/
def c6cfg : ConfigMap :=
  [("keyId", .str "2931"), ("secretRing", .str "/ring"),
   ("selfPubKeyDir", .str "/pub")]

/-- Concrete filesystem for the C6 witness: the selfPubKeyDir exists, the
blob file does not. -/
def c6fs : FS := { files := [], dirs := ["/pub"] }

/-- Witness for C6 at a concrete configuration, keyring and filesystem. -/
theorem signerPublicKeyBlobref_idempotent_witness :
    (getSignerPublicKeyBlobref c6ext (some (.ok (c6cfg, false))) none c6fs).2.2
      = .ok (some (c6ext.sha1FromString "ARMOR"))
    ∧ (getSignerPublicKeyBlobref c6ext
        (getSignerPublicKeyBlobref c6ext (some (.ok (c6cfg, false))) none
          c6fs).1 none
        (getSignerPublicKeyBlobref c6ext (some (.ok (c6cfg, false))) none
          c6fs).2.1).2.2
      = .ok (some (c6ext.sha1FromString "ARMOR"))
    ∧ (getSignerPublicKeyBlobref c6ext
        (getSignerPublicKeyBlobref c6ext (some (.ok (c6cfg, false))) none
          c6fs).1 none
        (getSignerPublicKeyBlobref c6ext (some (.ok (c6cfg, false))) none
          c6fs).2.1).2.1
      = (getSignerPublicKeyBlobref c6ext (some (.ok (c6cfg, false))) none
          c6fs).2.1 :=
  signerPublicKeyBlobref_idempotent c6ext c6cfg false none c6fs
    "2931" "/ring" "ENT" "ARMOR" "/pub" rfl rfl rfl rfl rfl (by decide)

end CamliClient
